import Mathlib

/-!
# Verification of the impact-analysis service core

Shallow embedding of the impact-traversal and aggregation engine of the
`impact-analysis-service` repository:

* `ISO.parse_iso_id` (`app/domain/entities/iso.py`) — the entity resolver;
* `GraphTraversalStrategy` (`app/application/strategies/graph_traversal_strategy.py`)
  — the single-entity analysis path and its severity classifier;
* `BatchImpactAnalysisUseCase` (`app/application/use_cases/batch_impact_analysis.py`)
  — batch analysis, hierarchy building, per-type deduplicated sets,
  batch severity classifier and the approval rule;
* `GetChildrenHierarchyUseCase` (`app/application/use_cases/get_children_hierarchy.py`)
  — depth-limited children retrieval.

The graph store (Neo4j behind `IGraphRepository`) is modelled as a record of
query functions, each returning `Except Unit` results: `.error ()` stands for a
raised store exception (`DatabaseConnectionError`), `.ok` for a normal reply.
-/

namespace ImpactAnalysis

/-! ## Property bags and store records

Spool and part records come back from the store as plain Python dicts; we model
them as association lists from property names to string values.  `recGet?`
models `d.get(k)` (`None` when absent), `recGetD` models `d.get(k, default)`. -/

abbrev Rec := List (String × String)

def recGet? (r : Rec) (k : String) : Option String :=
  (r.find? (fun p => p.1 == k)).map (·.2)

def recGetD (r : Rec) (k d : String) : String :=
  (recGet? r k).getD d

/-- Python's `s.lower()` (char-wise ASCII lowering, the only case the code
relies on). -/
def strLower (s : String) : String :=
  String.mk (s.toList.map Char.toLower)

/-! ## Entity resolver: `ISO.parse_iso_id`

Python's `iso_id.split('.')` splits on every `'.'`, keeping empty segments and
returning `[iso_id]` when there is no dot (in particular `"".split('.') ==
[""]`).  `splitOnDot` reproduces that semantics by direct recursion on the
characters. -/

def splitOnDotAux : List Char → List Char → List String
  | [], cur => [String.mk cur.reverse]
  | c :: cs, cur =>
    if c = '.' then String.mk cur.reverse :: splitOnDotAux cs []
    else splitOnDotAux cs (c :: cur)

def splitOnDot (s : String) : List String :=
  splitOnDotAux s.toList []

/-- The record returned by `ISO.parse_iso_id`. -/
structure IsoParsed where
  id : String
  iso_number : String
  sheet_number : Option String
deriving DecidableEq, Repr

/-- `ISO.parse_iso_id` (`app/domain/entities/iso.py`, lines 32–51):
`parts = iso_id.split('.')`; `iso_number = parts[0] if len(parts) > 0 else
iso_id`; `sheet_number = parts[1] if len(parts) > 1 else None`. -/
def parse_iso_id (iso_id : String) : IsoParsed :=
  let parts := splitOnDot iso_id
  let iso_number := match parts with
    | p :: _ => p
    | [] => iso_id
  let sheet_number := match parts with
    | _ :: s :: _ => some s
    | _ => none
  ⟨iso_id, iso_number, sheet_number⟩

/-! ## Severity classifiers and the approval rule -/

/-- `ChangeSeverity` (`app/domain/entities/change_event.py`). -/
inductive ChangeSeverity where
  | LOW | MEDIUM | HIGH | CRITICAL
deriving DecidableEq, Repr

/-- `GraphTraversalStrategy._assess_severity`
(`graph_traversal_strategy.py`, lines 177–194). -/
def assess_severity_single (impact_count : Nat) : ChangeSeverity :=
  if impact_count = 0 then .LOW
  else if impact_count ≤ 5 then .MEDIUM
  else if impact_count ≤ 15 then .HIGH
  else .CRITICAL

/-- `BatchImpactAnalysisUseCase._assess_severity`
(`batch_impact_analysis.py`, lines 240–257). -/
def assess_severity_batch (total_impact_count : Nat) : String :=
  if total_impact_count = 0 then "low"
  else if total_impact_count ≤ 10 then "medium"
  else if total_impact_count ≤ 30 then "high"
  else "critical"

/-- `BatchImpactAnalysisUseCase._requires_approval`
(`batch_impact_analysis.py`, lines 259–270):
`severity in ["high", "critical"] or total_impact_count > 15`. -/
def requires_approval (severity : String) (total_impact_count : Nat) : Bool :=
  (severity == "high" || severity == "critical") || decide (total_impact_count > 15)

/-! ## The store port

`IGraphRepository` as consumed by the use cases.  Each query returns
`Except Unit` — `.error ()` models a raised `DatabaseConnectionError` (or any
other store exception), `.ok` a normal reply.  ISO records from the store are
already parsed into the pydantic `ISO` shape (`id`, `iso_number`,
`sheet_number`), which is exactly `IsoParsed`.  `traverse_impact_graph`
returns `(labels, properties)` records. -/

/-- The pydantic `Line` entity: its id plus the rest of `line.dict()`. -/
structure LineEnt where
  id : String
  props : Rec
deriving DecidableEq, Repr

structure Store where
  get_line_by_id : String → Except Unit (Option LineEnt)
  get_affected_isos_by_line : String → Except Unit (List IsoParsed)
  get_affected_spools_by_iso : String → Except Unit (List Rec)
  get_affected_parts_by_iso : String → Except Unit (List Rec)
  traverse_impact_graph : String → String → Nat → Except Unit (List (List String × Rec))
  spool_groups_parts : String → Except Unit (List Rec)

/-- `iso.dict()` as a property bag (a `None` sheet number is a key the code
never reads back, modelled by omitting it). -/
def isoDict (i : IsoParsed) : Rec :=
  [("id", i.id), ("iso_number", i.iso_number)]
    ++ (match i.sheet_number with
        | some s => [("sheet_number", s)]
        | none => [])

/-! ## Batch impact analysis (`BatchImpactAnalysisUseCase`)

The Python use case mutates one `result` dict in place; we pass the
accumulator explicitly.  A store exception inside a helper leaves the
mutations already made in place, so each helper returns the updated
accumulator alongside `Except Unit` of its own product. -/

/-- An element of `affected_lines` / `affected_isos` / `affected_spools` /
`affected_parts`: `{"id": ..., "type": ..., "properties": ...}`. -/
structure Entry where
  id : String
  type : String
  properties : Rec
deriving DecidableEq, Repr

/-- A node of `impact_hierarchy`: `{"entity_id": ..., "entity_type": ...,
"children": [...], "properties": ..., "impact_count": ...}`. -/
inductive HNode where
  | mk (entity_id : String) (entity_type : String) (children : List HNode)
       (properties : Rec) (impact_count : Nat)

def HNode.entity_id : HNode → String
  | .mk i _ _ _ _ => i

def HNode.entity_type : HNode → String
  | .mk _ t _ _ _ => t

def HNode.children : HNode → List HNode
  | .mk _ _ cs _ _ => cs

def HNode.impact_count : HNode → Nat
  | .mk _ _ _ _ c => c

mutual

/-- `BatchImpactAnalysisUseCase._count_hierarchy_impacts`
(`batch_impact_analysis.py`, lines 233–238): `1` for the node itself plus the
recursive count of every child. -/
def count_hierarchy_impacts : HNode → Nat
  | .mk _ _ cs _ _ => 1 + countHierarchyList cs

def countHierarchyList : List HNode → Nat
  | [] => 0
  | c :: cs => count_hierarchy_impacts c + countHierarchyList cs

end

mutual

/-- `p` holds at every node of the tree. -/
def HNode.allNodes (p : HNode → Bool) : HNode → Bool
  | .mk i t cs pr c => p (.mk i t cs pr c) && allNodesList p cs

def allNodesList (p : HNode → Bool) : List HNode → Bool
  | [] => true
  | c :: cs => c.allNodes p && allNodesList p cs

end

/-- The `result` dict while the batch use case is running. -/
structure BatchAcc where
  affected_lines : List Entry
  affected_isos : List Entry
  affected_spools : List Entry
  affected_parts : List Entry
  impact_hierarchy : List HNode

def emptyBatchAcc : BatchAcc := ⟨[], [], [], [], []⟩

/-- The dedup guard plus append for one spool record
(`batch_impact_analysis.py`, lines 196–201). -/
def addSpoolToSet (r : Rec) (set : List Entry) : List Entry :=
  if set.any (fun s => recGet? r "id" == some s.id) then set
  else set ++ [⟨recGetD r "id" "unknown", "SPOOL", r⟩]

/-- The dedup guard plus append for one part record (lines 215–220). -/
def addPartToSet (r : Rec) (set : List Entry) : List Entry :=
  if set.any (fun p => recGet? r "id" == some p.id) then set
  else set ++ [⟨recGetD r "id" "unknown", "Part", r⟩]

/-- The hierarchy child appended for one spool (lines 203–209). -/
def spoolChild (r : Rec) : HNode :=
  .mk (recGetD r "id" "unknown") "SPOOL" [] r 1

/-- The hierarchy child appended for one part (lines 222–228). -/
def partChild (r : Rec) : HNode :=
  .mk (recGetD r "id" "unknown") "Part" [] r 1

/-- `for spool in spools:` — updates the deduplicated set and appends a leaf
child per record. -/
def spoolLoop : List Rec → List Entry → List HNode → List Entry × List HNode
  | [], set, children => (set, children)
  | r :: rs, set, children => spoolLoop rs (addSpoolToSet r set) (children ++ [spoolChild r])

/-- `for part in parts:` — same shape as `spoolLoop`. -/
def partLoop : List Rec → List Entry → List HNode → List Entry × List HNode
  | [], set, children => (set, children)
  | r :: rs, set, children => partLoop rs (addPartToSet r set) (children ++ [partChild r])

/-- Second half of `_get_iso_children` (lines 211–231): the parts block and
the final node: `hierarchy_node["impact_count"] = len(hierarchy_node["children"])`. -/
def getIsoChildrenBParts (st : Store) (iso_id : String) (acc : BatchAcc)
    (include_parts : Bool) (iso_data : Rec) (children : List HNode) :
    BatchAcc × Except Unit HNode :=
  if include_parts then
    match st.get_affected_parts_by_iso iso_id with
    | .error e => (acc, .error e)
    | .ok parts =>
      let pl := partLoop parts acc.affected_parts children
      ({ acc with affected_parts := pl.1 },
        .ok (.mk iso_id "ISO" pl.2 iso_data pl.2.length))
  else (acc, .ok (.mk iso_id "ISO" children iso_data children.length))

/-- `BatchImpactAnalysisUseCase._get_iso_children`
(`batch_impact_analysis.py`, lines 175–231). -/
def getIsoChildrenB (st : Store) (iso_id : String) (acc : BatchAcc)
    (include_spools include_parts : Bool) : BatchAcc × Except Unit HNode :=
  let iso_data := isoDict (parse_iso_id iso_id)
  if include_spools then
    match st.get_affected_spools_by_iso iso_id with
    | .error e => (acc, .error e)
    | .ok spools =>
      let sl := spoolLoop spools acc.affected_spools []
      getIsoChildrenBParts st iso_id { acc with affected_spools := sl.1 }
        include_parts iso_data sl.2
  else getIsoChildrenBParts st iso_id acc include_parts iso_data []

/-- The `affected_lines` append in `_process_line` (lines 100–104). -/
def addLineToSet (line : LineEnt) (acc : BatchAcc) : BatchAcc :=
  { acc with affected_lines := acc.affected_lines ++ [⟨line.id, "Line", line.props⟩] }

/-- The `affected_isos` dedup guard plus append for a fetched ISO entity
(`_process_line`, lines 119–125). -/
def addIsoEntToSet (iso : IsoParsed) (acc : BatchAcc) : BatchAcc :=
  if acc.affected_isos.any (fun i => i.id == iso.id) then acc
  else { acc with affected_isos := acc.affected_isos ++ [⟨iso.id, "ISO", isoDict iso⟩] }

/-- The `affected_isos` dedup guard plus append for a requested raw iso id
(`_process_iso`, lines 153–160). -/
def addIsoIdToSet (iso_id : String) (acc : BatchAcc) : BatchAcc :=
  if acc.affected_isos.any (fun i => i.id == iso_id) then acc
  else { acc with affected_isos :=
          acc.affected_isos ++ [⟨iso_id, "ISO", isoDict (parse_iso_id iso_id)⟩] }

/-- `for iso in isos:` inside `_process_line` (lines 118–135): dedup-add each
ISO to `affected_isos`, expand it, and collect the line node's children. -/
def processLineIsos (st : Store) : List IsoParsed → BatchAcc → List HNode →
    Bool → Bool → BatchAcc × Except Unit (List HNode)
  | [], acc, children, _, _ => (acc, .ok children)
  | iso :: rest, acc, children, incS, incP =>
    match getIsoChildrenB st iso.id (addIsoEntToSet iso acc) incS incP with
    | (acc, .error e) => (acc, .error e)
    | (acc, .ok node) => processLineIsos st rest acc (children ++ [node]) incS incP

/-- `BatchImpactAnalysisUseCase._process_line` (lines 84–142).  The trailing
`except` catches any store error: the accumulator keeps whatever was already
appended, and no hierarchy node is produced for the line. -/
def processLine (st : Store) (line_id : String) (acc : BatchAcc)
    (include_spools include_parts : Bool) : BatchAcc :=
  match st.get_line_by_id line_id with
  | .error _ => acc
  | .ok none => acc
  | .ok (some line) =>
    match st.get_affected_isos_by_line line_id with
    | .error _ => addLineToSet line acc
    | .ok isos =>
      match processLineIsos st isos (addLineToSet line acc) [] include_spools include_parts with
      | (acc, .error _) => acc
      | (acc, .ok children) =>
        let node : HNode := .mk line_id "Line" children line.props
          (count_hierarchy_impacts (.mk line_id "Line" children line.props 0))
        { acc with impact_hierarchy := acc.impact_hierarchy ++ [node] }

/-- `BatchImpactAnalysisUseCase._process_iso` (lines 144–173). -/
def processIso (st : Store) (iso_id : String) (acc : BatchAcc)
    (include_spools include_parts : Bool) : BatchAcc :=
  match getIsoChildrenB st iso_id (addIsoIdToSet iso_id acc) include_spools include_parts with
  | (acc, .error _) => acc
  | (acc, .ok node) => { acc with impact_hierarchy := acc.impact_hierarchy ++ [node] }

structure BatchMetrics where
  total_affected_isos : Nat
  total_affected_spools : Nat
  total_affected_parts : Nat
  total_impact_count : Nat
deriving DecidableEq, Repr

structure BatchResult where
  affected_lines : List Entry
  affected_isos : List Entry
  affected_spools : List Entry
  affected_parts : List Entry
  impact_hierarchy : List HNode
  metrics : BatchMetrics

/-- `BatchImpactAnalysisUseCase.execute` (lines 28–82): processes every line,
then every ISO, then fills the metrics from the deduplicated set sizes. -/
def executeBatch (st : Store) (line_numbers iso_numbers : List String)
    (include_spools include_parts : Bool) : BatchResult :=
  let acc := line_numbers.foldl
    (fun a lid => processLine st lid a include_spools include_parts) emptyBatchAcc
  let acc := iso_numbers.foldl
    (fun a iid => processIso st iid a include_spools include_parts) acc
  { affected_lines := acc.affected_lines
    affected_isos := acc.affected_isos
    affected_spools := acc.affected_spools
    affected_parts := acc.affected_parts
    impact_hierarchy := acc.impact_hierarchy
    metrics :=
      { total_affected_isos := acc.affected_isos.length
        total_affected_spools := acc.affected_spools.length
        total_affected_parts := acc.affected_parts.length
        total_impact_count := acc.affected_isos.length + acc.affected_spools.length
          + acc.affected_parts.length } }

/-! ## Shape predicates on batch hierarchy nodes -/

/-- A SPOOL or Part hierarchy child: always a leaf with `impact_count = 1`. -/
def isBatchLeafChild (n : HNode) : Bool :=
  (n.entity_type == "SPOOL" || n.entity_type == "Part")
    && n.children.isEmpty && (n.impact_count == 1)

/-- An ISO hierarchy node: `impact_count` is the *number of its children*,
and every child is a SPOOL/Part leaf. -/
def isBatchIsoNode (n : HNode) : Bool :=
  n.entity_type == "ISO" && (n.impact_count == n.children.length)
    && n.children.all isBatchLeafChild

/-- A Line hierarchy node: `impact_count` is the recursive
`_count_hierarchy_impacts` of the whole subtree, and every child is an ISO
node. -/
def isBatchLineNode (n : HNode) : Bool :=
  n.entity_type == "Line" && (n.impact_count == count_hierarchy_impacts n)
    && n.children.all isBatchIsoNode

def isBatchTopNode (n : HNode) : Bool :=
  isBatchIsoNode n || isBatchLineNode n

/-- The per-node property C1 claims: `impact_count` = 1 + sum of the
children's `impact_count`s. -/
def claimedCountOk (n : HNode) : Bool :=
  n.impact_count == 1 + (n.children.map HNode.impact_count).sum

/-- Every SPOOL node is a leaf with `impact_count = 1`. -/
def spoolLeafPred (n : HNode) : Bool :=
  !(n.entity_type == "SPOOL") || (n.children.isEmpty && (n.impact_count == 1))

/-- Store records for spools and parts carry an `"id"` property — the shape
§4.2 of the spec guarantees for store replies. -/
def Store.SpoolPartsHaveIds (st : Store) : Prop :=
  (∀ isoId l, st.get_affected_spools_by_iso isoId = .ok l
      → ∀ r ∈ l, (recGet? r "id").isSome)
    ∧ (∀ isoId l, st.get_affected_parts_by_iso isoId = .ok l
      → ∀ r ∈ l, (recGet? r "id").isSome)

/-! ## Concrete stores used in counterexamples and witnesses -/

/-- A store that knows no entity at all and never fails. -/
def stEmpty : Store where
  get_line_by_id := fun _ => .ok none
  get_affected_isos_by_line := fun _ => .ok []
  get_affected_spools_by_iso := fun _ => .ok []
  get_affected_parts_by_iso := fun _ => .ok []
  traverse_impact_graph := fun _ _ _ => .ok []
  spool_groups_parts := fun _ => .ok []

/-- A store whose spool query raises for ISO `"I1"` and succeeds (with no
children) everywhere else. -/
def stFailSpools : Store :=
  { stEmpty with
      get_affected_spools_by_iso := fun i => if i == "I1" then .error () else .ok [] }

/-! ## Single-entity analysis (`GraphTraversalStrategy.analyze`)

Errors: `invalidChangeEvent` models `InvalidChangeEventError`,
`entityNotFound` models `EntityNotFoundError`, `storeUnavailable` a
propagated store exception, and `keyError` the `KeyError` a missing `"id"`
subscript would raise in `_analyze_generic_impact`. -/

inductive AnalysisError where
  | invalidChangeEvent
  | entityNotFound
  | storeUnavailable
  | keyError
deriving DecidableEq, Repr

/-- The fields of `ImpactResult` the analysis computes (bookkeeping fields —
event id, timestamp, `additional_info` — are omitted). -/
structure SingleResult where
  affected_isos : List IsoParsed
  affected_spools : List Rec
  affected_parts : List Rec
  impact_count : Nat
  severity : ChangeSeverity
deriving DecidableEq, Repr

/-- The `for iso in affected_isos:` loop of `_analyze_line_impact`
(lines 102–107): fetch each ISO's spools and parts and extend the lists. -/
def collectSpoolsParts (st : Store) : List IsoParsed → List Rec → List Rec →
    Except Unit (List Rec × List Rec)
  | [], spools, parts => .ok (spools, parts)
  | iso :: rest, spools, parts =>
    match st.get_affected_spools_by_iso iso.id with
    | .error e => .error e
    | .ok s =>
      match st.get_affected_parts_by_iso iso.id with
      | .error e => .error e
      | .ok p => collectSpoolsParts st rest (spools ++ s) (parts ++ p)

/-- `GraphTraversalStrategy._analyze_line_impact`
(`graph_traversal_strategy.py`, lines 81–114). -/
def analyzeLineImpact (st : Store) (line_id : String) :
    Except AnalysisError (List IsoParsed × List Rec × List Rec) :=
  match st.get_line_by_id line_id with
  | .error _ => .error .storeUnavailable
  | .ok none => .error .entityNotFound
  | .ok (some _line) =>
    match st.get_affected_isos_by_line line_id with
    | .error _ => .error .storeUnavailable
    | .ok isos =>
      match collectSpoolsParts st isos [] [] with
      | .error _ => .error .storeUnavailable
      | .ok sp => .ok (isos, sp.1, sp.2)

/-- `GraphTraversalStrategy._analyze_iso_impact` (lines 116–136): no
existence check — the ISO itself is reconstructed by parsing its id. -/
def analyzeIsoImpact (st : Store) (iso_id : String) :
    Except AnalysisError (List IsoParsed × List Rec × List Rec) :=
  match st.get_affected_spools_by_iso iso_id with
  | .error _ => .error .storeUnavailable
  | .ok spools =>
    match st.get_affected_parts_by_iso iso_id with
    | .error _ => .error .storeUnavailable
    | .ok parts => .ok ([parse_iso_id iso_id], spools, parts)

/-- `label = record["labels"][0] if record["labels"] else "Unknown"`
(`neo4j_repository.py`, line 193). -/
def labelOf (record : List String × Rec) : String :=
  record.1.headD "Unknown"

/-- The entities grouped under one label by the insertion-ordered dict built
in `traverse_impact_graph` (lines 191–199). -/
def entitiesOfLabel (records : List (List String × Rec)) (lbl : String) : List Rec :=
  (records.filter (fun r => labelOf r == lbl)).map (·.2)

/-- `iso["id"]` — a dict subscript: raises `KeyError` when absent. -/
def recIdStrict (r : Rec) : Except AnalysisError String :=
  match recGet? r "id" with
  | some v => .ok v
  | none => .error .keyError

/-- `[ISO(**ISO.parse_iso_id(iso["id"])) for iso in affected_entities["ISO"]]`
(`graph_traversal_strategy.py`, lines 160–163). -/
def mapIsoRecs : List Rec → Except AnalysisError (List IsoParsed)
  | [] => .ok []
  | r :: rs =>
    match recIdStrict r with
    | .error e => .error e
    | .ok v =>
      match mapIsoRecs rs with
      | .error e => .error e
      | .ok l => .ok (parse_iso_id v :: l)

/-- `GraphTraversalStrategy._analyze_generic_impact` (lines 138–175),
together with the grouping-by-first-label done in
`traverse_impact_graph`. -/
def analyzeGenericImpact (st : Store) (entity_type entity_id : String) :
    Except AnalysisError (List IsoParsed × List Rec × List Rec) :=
  match st.traverse_impact_graph entity_type entity_id 5 with
  | .error _ => .error .storeUnavailable
  | .ok records =>
    let isoRecs := if records.any (fun r => labelOf r == "ISO")
      then entitiesOfLabel records "ISO" else []
    match mapIsoRecs isoRecs with
    | .error e => .error e
    | .ok isos =>
      let spools := if records.any (fun r => labelOf r == "SPOOL")
        then entitiesOfLabel records "SPOOL" else []
      let parts := if records.any (fun r => labelOf r == "Part")
        then entitiesOfLabel records "Part" else []
      .ok (isos, spools, parts)

/-- `result.update_impact_count()` followed by
`result.severity = self._assess_severity(result.impact_count)`
(`graph_traversal_strategy.py`, lines 72–76, `impact_result.py`,
lines 60–70). -/
def finishResult (isos : List IsoParsed) (spools parts : List Rec) : SingleResult :=
  let count := isos.length + spools.length + parts.length
  ⟨isos, spools, parts, count, assess_severity_single count⟩

/-- `GraphTraversalStrategy.analyze` (lines 30–79): validation, dispatch on
the lowercased entity type, then count and severity. -/
def analyzeSingle (st : Store) (entity_type entity_id : String) :
    Except AnalysisError SingleResult :=
  if entity_id.isEmpty || entity_type.isEmpty then .error .invalidChangeEvent
  else
    match (if strLower entity_type == "line" then analyzeLineImpact st entity_id
           else if strLower entity_type == "iso" then analyzeIsoImpact st entity_id
           else analyzeGenericImpact st entity_type entity_id) with
    | .error e => .error e
    | .ok r => .ok (finishResult r.1 r.2.1 r.2.2)

/-! ## Depth-limited children retrieval (`GetChildrenHierarchyUseCase`) -/

/-- A node of the minimal recursive tree: `{id, latest_status, children}`. -/
inductive CNode where
  | mk (id : String) (latest_status : Option String) (children : List CNode)

def CNode.children : CNode → List CNode
  | .mk _ _ cs => cs

mutual

/-- Longest root-to-leaf path length of one tree, counting the root as 1. -/
def CNode.height : CNode → Nat
  | .mk _ _ cs => 1 + heightList cs

def heightList : List CNode → Nat
  | [] => 0
  | c :: cs => max c.height (heightList cs)

end

/-- `GetChildrenHierarchyUseCase._get_spool_children`
(`get_children_hierarchy.py`, lines 135–170): the `GROUPS` query, with every
store error caught and turned into an empty list. -/
def getSpoolChildrenH (st : Store) (spool_id : String)
    (max_depth current_depth : Nat) : List CNode :=
  if current_depth > max_depth then []
  else
    match st.spool_groups_parts spool_id with
    | .error _ => []
    | .ok parts => parts.map (fun p => .mk (recGetD p "id" "unknown") none [])

/-- `GetChildrenHierarchyUseCase._get_iso_children` (lines 92–133): spool
nodes (descending one level when depth remains) followed by direct-part
leaves. -/
def getIsoChildrenH (st : Store) (iso_id : String)
    (max_depth current_depth : Nat) : Except Unit (List CNode) :=
  if current_depth > max_depth then .ok []
  else
    match st.get_affected_spools_by_iso iso_id with
    | .error e => .error e
    | .ok spools =>
      let spoolNodes := spools.map (fun sp =>
        CNode.mk (recGetD sp "id" "unknown") (recGet? sp "latest_status")
          (if current_depth < max_depth then
            getSpoolChildrenH st (recGetD sp "id" "unknown") max_depth (current_depth + 1)
          else []))
      match st.get_affected_parts_by_iso iso_id with
      | .error e => .error e
      | .ok parts =>
        .ok (spoolNodes ++ parts.map (fun p => .mk (recGetD p "id" "unknown") none []))

/-- The `for iso in isos:` loop of `_get_line_children` (lines 72–89). -/
def lineIsoNodes (st : Store) : List IsoParsed → Nat → Nat → Except Unit (List CNode)
  | [], _, _ => .ok []
  | iso :: rest, maxD, curD =>
    match (if curD < maxD then getIsoChildrenH st iso.id maxD (curD + 1) else .ok []) with
    | .error e => .error e
    | .ok cs =>
      match lineIsoNodes st rest maxD curD with
      | .error e => .error e
      | .ok ns => .ok (CNode.mk iso.id none cs :: ns)

/-- `GetChildrenHierarchyUseCase._get_line_children` (lines 59–90). -/
def getLineChildrenH (st : Store) (line_id : String)
    (max_depth current_depth : Nat) : Except Unit (List CNode) :=
  if current_depth > max_depth then .ok []
  else
    match st.get_affected_isos_by_line line_id with
    | .error e => .error e
    | .ok isos => lineIsoNodes st isos max_depth current_depth

mutual

/-- `GetChildrenHierarchyUseCase._count_descendants` (lines 172–177):
`len(children)` plus the recursive count of every child's children. -/
def count_descendants : List CNode → Nat
  | [] => 0
  | c :: rest => 1 + count_descendants_node c + count_descendants rest

def count_descendants_node : CNode → Nat
  | .mk _ _ cs => count_descendants cs

end

structure ChildrenResult where
  entity_id : String
  entity_type : String
  children : List CNode
  total_descendants : Nat

/-- `GetChildrenHierarchyUseCase.execute` (lines 21–57): dispatch on the
lowercased entity type with `current_depth = 1`, unsupported types yield no
children. -/
def executeChildren (st : Store) (entity_type entity_id : String)
    (depth : Nat) : Except Unit ChildrenResult :=
  match (if strLower entity_type == "line" then getLineChildrenH st entity_id depth 1
         else if strLower entity_type == "iso" then getIsoChildrenH st entity_id depth 1
         else if strLower entity_type == "spool" then
           .ok (getSpoolChildrenH st entity_id depth 1)
         else .ok []) with
  | .error e => .error e
  | .ok children => .ok ⟨entity_id, entity_type, children, count_descendants children⟩

/-- A store for the children-retrieval witness: ISO `"X.1"` has two spools
and one direct part. -/
def stChildren : Store :=
  { stEmpty with
      get_affected_spools_by_iso := fun i =>
        if i == "X.1" then .ok [[("id", "S1")], [("id", "S2")]] else .ok []
      get_affected_parts_by_iso := fun i =>
        if i == "X.1" then .ok [[("id", "P1")]] else .ok [] }

end ImpactAnalysis

namespace ImpactAnalysis

/-! ## Lemmas about `splitOnDot` -/

theorem splitOnDotAux_ne_nil (l : List Char) (cur : List Char) :
    splitOnDotAux l cur ≠ [] := by
  induction l generalizing cur with
  | nil => simp [splitOnDotAux]
  | cons c cs ih =>
    simp only [splitOnDotAux]
    split
    · simp
    · exact ih _

theorem splitOnDotAux_no_dot (l : List Char) (cur : List Char)
    (h : '.' ∉ l) : splitOnDotAux l cur = [String.mk (cur.reverse ++ l)] := by
  induction l generalizing cur with
  | nil => simp [splitOnDotAux]
  | cons c cs ih =>
    simp only [List.mem_cons, not_or] at h
    simp only [splitOnDotAux, if_neg (Ne.symm h.1)]
    rw [ih _ h.2]
    simp

theorem splitOnDotAux_append_dot (l₁ rest : List Char) (cur : List Char)
    (h : '.' ∉ l₁) :
    splitOnDotAux (l₁ ++ '.' :: rest) cur
      = String.mk (cur.reverse ++ l₁) :: splitOnDotAux rest [] := by
  induction l₁ generalizing cur with
  | nil => simp [splitOnDotAux]
  | cons c cs ih =>
    simp only [List.mem_cons, not_or] at h
    simp only [List.cons_append, splitOnDotAux, if_neg (Ne.symm h.1), List.append_eq]
    rw [ih _ h.2]
    simp

theorem splitOnDotAux_two_le_of_dot (l : List Char) (cur : List Char)
    (h : '.' ∈ l) : 2 ≤ (splitOnDotAux l cur).length := by
  induction l generalizing cur with
  | nil => simp at h
  | cons c cs ih =>
    simp only [splitOnDotAux]
    rcases List.mem_cons.mp h with h1 | h2
    · rw [if_pos h1.symm]
      have := List.length_pos.mpr (splitOnDotAux_ne_nil cs ([] : List Char))
      simp only [List.length_cons]
      omega
    · split
      · have := List.length_pos.mpr (splitOnDotAux_ne_nil cs ([] : List Char))
        simp only [List.length_cons]
        omega
      · exact ih _ h2

theorem string_mk_toList (s : String) : String.mk s.toList = s := rfl

theorem splitOnDot_no_dot (s : String) (h : '.' ∉ s.toList) :
    splitOnDot s = [s] := by
  unfold splitOnDot
  rw [splitOnDotAux_no_dot _ _ h]
  simp [string_mk_toList]

theorem toList_append (a b : String) : (a ++ b).toList = a.toList ++ b.toList :=
  String.data_append a b

theorem splitOnDot_sep (a r : String) (ha : '.' ∉ a.toList) :
    splitOnDot (a ++ "." ++ r) = a :: splitOnDot r := by
  unfold splitOnDot
  have hdot : ("." : String).toList = ['.'] := rfl
  have h1 : (a ++ "." ++ r).toList = a.toList ++ '.' :: r.toList := by
    rw [toList_append, toList_append, hdot, List.append_assoc]
    rfl
  rw [h1, splitOnDotAux_append_dot _ _ _ ha]
  simp [string_mk_toList]

theorem splitOnDot_ne_nil (s : String) : splitOnDot s ≠ [] :=
  splitOnDotAux_ne_nil _ _

theorem splitOnDot_two_le_iff (s : String) :
    2 ≤ (splitOnDot s).length ↔ '.' ∈ s.toList := by
  constructor
  · intro h
    by_contra hn
    rw [splitOnDot_no_dot s hn] at h
    simp at h
  · exact splitOnDotAux_two_le_of_dot _ _

/-! ## Behaviour of `parse_iso_id` -/

theorem parse_iso_id_no_dot (s : String) (h : '.' ∉ s.toList) :
    parse_iso_id s = ⟨s, s, none⟩ := by
  unfold parse_iso_id
  rw [splitOnDot_no_dot s h]

theorem parse_iso_id_sep (a r : String) (ha : '.' ∉ a.toList) :
    parse_iso_id (a ++ "." ++ r)
      = ⟨a ++ "." ++ r, a, some ((splitOnDot r).headD r)⟩ := by
  unfold parse_iso_id
  rw [splitOnDot_sep a r ha]
  rcases h : splitOnDot r with _ | ⟨x, t⟩
  · exact absurd h (splitOnDot_ne_nil r)
  · simp

theorem parse_iso_id_id (s : String) : (parse_iso_id s).id = s := rfl

theorem parse_iso_id_sheet_isSome (s : String) :
    (parse_iso_id s).sheet_number.isSome ↔ '.' ∈ s.toList := by
  unfold parse_iso_id
  rcases h : splitOnDot s with _ | ⟨x, _ | ⟨y, t⟩⟩
  · exact absurd h (splitOnDot_ne_nil s)
  · have h2 : ¬ 2 ≤ (splitOnDot s).length := by rw [h]; simp
    rw [splitOnDot_two_le_iff] at h2
    simpa [h] using h2
  · have h2 : 2 ≤ (splitOnDot s).length := by rw [h]; simp
    rw [splitOnDot_two_le_iff] at h2
    simpa [h] using h2

/-! ## Claim theorems: resolver and classifiers -/

/-- C6 counterexample.  On the id `"A.B.C"` (more than one `.`), the resolver
yields `sheet_number = "B"` — the segment between the first and the second dot,
not the substring `"B.C"` after the first dot as the claim states — and the
id is not `iso_number ++ "." ++ sheet_number`. -/
theorem parse_iso_id_multi_dot_cex :
    parse_iso_id "A.B.C" = ⟨"A.B.C", "A", some "B"⟩
      ∧ some ("B" : String) ≠ some "B.C"
      ∧ ("A.B.C" : String) ≠ "A" ++ "." ++ "B" := by
  refine ⟨?_, by decide, by decide⟩
  decide

/-- C6 (amended): the resolver keeps the raw id unchanged in `id`; an id with
no `.` gets `iso_number = id` and no sheet; for `a ++ "." ++ r` with `a`
dot-free, `iso_number = a` (the segment before the first dot) and
`sheet_number` is the segment of `r` up to the next dot; when the id contains
exactly one dot (`b` dot-free), `sheet_number = b`, the full substring after
the dot, and the id is `iso_number ++ "." ++ sheet_number`. -/
theorem parse_iso_id_spec (s a b r : String) (hs : '.' ∉ s.toList)
    (ha : '.' ∉ a.toList) (hb : '.' ∉ b.toList) :
    parse_iso_id s = ⟨s, s, none⟩
      ∧ parse_iso_id (a ++ "." ++ r)
          = ⟨a ++ "." ++ r, a, some ((splitOnDot r).headD r)⟩
      ∧ parse_iso_id (a ++ "." ++ b) = ⟨a ++ "." ++ b, a, some b⟩
      ∧ (parse_iso_id (a ++ "." ++ b)).id
          = (parse_iso_id (a ++ "." ++ b)).iso_number ++ "."
              ++ ((parse_iso_id (a ++ "." ++ b)).sheet_number.getD "") := by
  have hone : parse_iso_id (a ++ "." ++ b) = ⟨a ++ "." ++ b, a, some b⟩ := by
    rw [parse_iso_id_sep a b ha, splitOnDot_no_dot b hb]
    simp
  refine ⟨parse_iso_id_no_dot s hs, parse_iso_id_sep a r ha, hone, ?_⟩
  rw [hone]
  rfl

/-- C6 witness. -/
theorem parse_iso_id_spec_witness :
    parse_iso_id "X" = ⟨"X", "X", none⟩
      ∧ parse_iso_id ("A" ++ "." ++ "B.C")
          = ⟨"A" ++ "." ++ "B.C", "A", some ((splitOnDot "B.C").headD "B.C")⟩
      ∧ parse_iso_id ("A" ++ "." ++ "B") = ⟨"A" ++ "." ++ "B", "A", some "B"⟩
      ∧ (parse_iso_id ("A" ++ "." ++ "B")).id
          = (parse_iso_id ("A" ++ "." ++ "B")).iso_number ++ "."
              ++ ((parse_iso_id ("A" ++ "." ++ "B")).sheet_number.getD "") :=
  parse_iso_id_spec "X" "A" "B" "B.C" (by decide) (by decide) (by decide)

/-- C8 counterexample.  The resolver does not fail on empty or blank input:
`parse_iso_id` is a total function and returns an ordinary parse record for
`""` and `" "` (the code raises no `MalformedIdentifier` anywhere). -/
theorem parse_iso_id_blank_cex :
    parse_iso_id "" = ⟨"", "", none⟩ ∧ parse_iso_id " " = ⟨" ", " ", none⟩ := by
  constructor <;> decide

/-- C8 (amended): the entity resolver is purely syntactic — a total function
of the id string alone, taking no store argument — and it never fails: every
input string, the empty and blank ones included, yields a parse record whose
`id` is the unchanged input and whose `sheet_number` is present exactly when
the input contains a `.`. -/
theorem parse_iso_id_total (s : String) :
    (parse_iso_id s).id = s
      ∧ ((parse_iso_id s).sheet_number.isSome ↔ '.' ∈ s.toList)
      ∧ parse_iso_id "" = ⟨"", "", none⟩
      ∧ parse_iso_id " " = ⟨" ", " ", none⟩ :=
  ⟨parse_iso_id_id s, parse_iso_id_sheet_isSome s,
    parse_iso_id_blank_cex.1, parse_iso_id_blank_cex.2⟩

/-- C2: the single-entity severity classifier maps `0 → LOW`, `1..5 → MEDIUM`,
`6..15 → HIGH`, `>15 → CRITICAL`, and the batch classifier maps `0 → low`,
`1..10 → medium`, `11..30 → high`, `>30 → critical`. -/
theorem assess_severity_spec (n : Nat) :
    (assess_severity_single n = .LOW ↔ n = 0)
      ∧ (assess_severity_single n = .MEDIUM ↔ 1 ≤ n ∧ n ≤ 5)
      ∧ (assess_severity_single n = .HIGH ↔ 6 ≤ n ∧ n ≤ 15)
      ∧ (assess_severity_single n = .CRITICAL ↔ 16 ≤ n)
      ∧ (assess_severity_batch n = "low" ↔ n = 0)
      ∧ (assess_severity_batch n = "medium" ↔ 1 ≤ n ∧ n ≤ 10)
      ∧ (assess_severity_batch n = "high" ↔ 11 ≤ n ∧ n ≤ 30)
      ∧ (assess_severity_batch n = "critical" ↔ 31 ≤ n) := by
  unfold assess_severity_single assess_severity_batch
  split_ifs <;> simp_all <;> omega

/-- C3: the batch approval rule holds exactly when the severity band is
`high` or `critical`, or the impact count exceeds 15 — both conditions are
present and neither subsumes the other. -/
theorem requires_approval_spec (s : String) (n : Nat) :
    requires_approval s n = true ↔ (s = "high" ∨ s = "critical" ∨ 15 < n) := by
  simp [requires_approval, or_assoc]

/-! ## Shape of the batch hierarchy -/

theorem isBatchLeafChild_spoolChild (r : Rec) : isBatchLeafChild (spoolChild r) = true := rfl

theorem isBatchLeafChild_partChild (r : Rec) : isBatchLeafChild (partChild r) = true := rfl

theorem spoolLoop_children_leaf (rs : List Rec) :
    ∀ set ch, ch.all isBatchLeafChild = true →
      (spoolLoop rs set ch).2.all isBatchLeafChild = true := by
  induction rs with
  | nil => intro set ch h; exact h
  | cons r rs ih =>
    intro set ch h
    apply ih
    simp only [List.all_append, h, Bool.true_and, List.all_cons, List.all_nil,
      isBatchLeafChild_spoolChild, Bool.and_self]

theorem partLoop_children_leaf (rs : List Rec) :
    ∀ set ch, ch.all isBatchLeafChild = true →
      (partLoop rs set ch).2.all isBatchLeafChild = true := by
  induction rs with
  | nil => intro set ch h; exact h
  | cons r rs ih =>
    intro set ch h
    apply ih
    simp only [List.all_append, h, Bool.true_and, List.all_cons, List.all_nil,
      isBatchLeafChild_partChild, Bool.and_self]

/-! Neither the set-add helpers nor the ISO expansion touch
`impact_hierarchy`; only `_process_line` and `_process_iso` append to it. -/

theorem addLineToSet_hierarchy (line : LineEnt) (acc : BatchAcc) :
    (addLineToSet line acc).impact_hierarchy = acc.impact_hierarchy := rfl

theorem addIsoEntToSet_hierarchy (iso : IsoParsed) (acc : BatchAcc) :
    (addIsoEntToSet iso acc).impact_hierarchy = acc.impact_hierarchy := by
  unfold addIsoEntToSet
  split <;> rfl

theorem addIsoIdToSet_hierarchy (iso_id : String) (acc : BatchAcc) :
    (addIsoIdToSet iso_id acc).impact_hierarchy = acc.impact_hierarchy := by
  unfold addIsoIdToSet
  split <;> rfl

theorem getIsoChildrenBParts_hierarchy (st : Store) (i : String) (acc : BatchAcc)
    (p : Bool) (d : Rec) (ch : List HNode) :
    (getIsoChildrenBParts st i acc p d ch).1.impact_hierarchy = acc.impact_hierarchy := by
  unfold getIsoChildrenBParts
  split
  · split <;> rfl
  · rfl

theorem getIsoChildrenB_hierarchy (st : Store) (i : String) (acc : BatchAcc)
    (s p : Bool) :
    (getIsoChildrenB st i acc s p).1.impact_hierarchy = acc.impact_hierarchy := by
  unfold getIsoChildrenB
  split
  · split
    · rfl
    · rw [getIsoChildrenBParts_hierarchy]
  · rw [getIsoChildrenBParts_hierarchy]

theorem processLineIsos_hierarchy {st : Store} (isos : List IsoParsed) :
    ∀ (acc : BatchAcc) (ch : List HNode) (s p : Bool),
      (processLineIsos st isos acc ch s p).1.impact_hierarchy = acc.impact_hierarchy := by
  induction isos with
  | nil => intro acc ch s p; rfl
  | cons iso rest ih =>
    intro acc ch s p
    unfold processLineIsos
    split
    · rename_i acc₁ e heq
      have : acc₁ = (getIsoChildrenB st iso.id (addIsoEntToSet iso acc) s p).1 := by
        rw [heq]
      rw [this, getIsoChildrenB_hierarchy, addIsoEntToSet_hierarchy]
    · rename_i acc₁ node heq
      have : acc₁ = (getIsoChildrenB st iso.id (addIsoEntToSet iso acc) s p).1 := by
        rw [heq]
      rw [ih, this, getIsoChildrenB_hierarchy, addIsoEntToSet_hierarchy]

theorem getIsoChildrenBParts_ok_shape {st : Store} {i : String} {acc : BatchAcc}
    {p : Bool} {d : Rec} {ch : List HNode} {acc' : BatchAcc} {node : HNode}
    (hch : ch.all isBatchLeafChild = true)
    (h : getIsoChildrenBParts st i acc p d ch = (acc', .ok node)) :
    isBatchIsoNode node = true := by
  unfold getIsoChildrenBParts at h
  split at h
  · split at h
    · simp at h
    · rename_i parts heq
      obtain ⟨-, h2⟩ := Prod.mk.injEq .. ▸ h
      cases h2
      simp only [isBatchIsoNode, HNode.entity_type, HNode.impact_count, HNode.children]
      simp [partLoop_children_leaf parts acc.affected_parts ch hch]
  · obtain ⟨-, h2⟩ := Prod.mk.injEq .. ▸ h
    cases h2
    simp only [isBatchIsoNode, HNode.entity_type, HNode.impact_count, HNode.children]
    simp [hch]

theorem getIsoChildrenB_ok_shape {st : Store} {i : String} {acc : BatchAcc}
    {s p : Bool} {acc' : BatchAcc} {node : HNode}
    (h : getIsoChildrenB st i acc s p = (acc', .ok node)) :
    isBatchIsoNode node = true := by
  unfold getIsoChildrenB at h
  split at h
  · split at h
    · simp at h
    · rename_i spools heq
      exact getIsoChildrenBParts_ok_shape
        (spoolLoop_children_leaf spools acc.affected_spools [] rfl) h
  · exact getIsoChildrenBParts_ok_shape
      (show ([] : List HNode).all isBatchLeafChild = true from rfl) h

theorem processLineIsos_ok_shape {st : Store} (isos : List IsoParsed) :
    ∀ {acc : BatchAcc} {ch : List HNode} {s p : Bool} {acc' : BatchAcc}
      {out : List HNode},
      ch.all isBatchIsoNode = true →
      processLineIsos st isos acc ch s p = (acc', .ok out) →
      out.all isBatchIsoNode = true := by
  induction isos with
  | nil =>
    intro acc ch s p acc' out hch h
    obtain ⟨-, h2⟩ := Prod.mk.injEq .. ▸ h
    cases h2
    exact hch
  | cons iso rest ih =>
    intro acc ch s p acc' out hch h
    unfold processLineIsos at h
    split at h
    · simp at h
    · rename_i acc₁ node heq
      refine ih ?_ h
      simp only [List.all_append, hch, Bool.true_and, List.all_cons, List.all_nil,
        getIsoChildrenB_ok_shape heq, Bool.and_self]

theorem count_hierarchy_impacts_mk (i t : String) (cs : List HNode) (pr : Rec) (c : Nat) :
    count_hierarchy_impacts (.mk i t cs pr c) = 1 + countHierarchyList cs := rfl

theorem processLine_hierarchy_shape {st : Store} {lid : String} {acc : BatchAcc}
    {s p : Bool} (h : acc.impact_hierarchy.all isBatchTopNode = true) :
    (processLine st lid acc s p).impact_hierarchy.all isBatchTopNode = true := by
  unfold processLine
  split
  · exact h
  · exact h
  · rename_i line heq
    split
    · exact h
    · rename_i isos heq2
      split
      · rename_i acc₂ e heq3
        have : acc₂ = (processLineIsos st isos (addLineToSet line acc) []
            s p).1 := by rw [heq3]
        rw [this, processLineIsos_hierarchy, addLineToSet_hierarchy]
        exact h
      · rename_i acc₂ children heq3
        have hacc₂ : acc₂ = (processLineIsos st isos (addLineToSet line acc) []
            s p).1 := by rw [heq3]
        have hpres : acc₂.impact_hierarchy = acc.impact_hierarchy := by
          rw [hacc₂, processLineIsos_hierarchy, addLineToSet_hierarchy]
        simp only [hpres, List.all_append, h, Bool.true_and, List.all_cons,
          List.all_nil, Bool.and_true]
        have hc : children.all isBatchIsoNode = true :=
          processLineIsos_ok_shape isos
            (show ([] : List HNode).all isBatchIsoNode = true from rfl) heq3
        simp only [isBatchTopNode, isBatchLineNode, HNode.entity_type,
          HNode.impact_count, HNode.children, count_hierarchy_impacts_mk]
        simp [hc]

theorem processIso_hierarchy_shape {st : Store} {iid : String} {acc : BatchAcc}
    {s p : Bool} (h : acc.impact_hierarchy.all isBatchTopNode = true) :
    (processIso st iid acc s p).impact_hierarchy.all isBatchTopNode = true := by
  unfold processIso
  split
  · rename_i acc₁ e heq
    have : acc₁ = (getIsoChildrenB st iid (addIsoIdToSet iid acc) s p).1 := by rw [heq]
    rw [this, getIsoChildrenB_hierarchy, addIsoIdToSet_hierarchy]
    exact h
  · rename_i acc₁ node heq
    have hacc₁ : acc₁ = (getIsoChildrenB st iid (addIsoIdToSet iid acc) s p).1 := by
      rw [heq]
    have hpres : acc₁.impact_hierarchy = acc.impact_hierarchy := by
      rw [hacc₁, getIsoChildrenB_hierarchy, addIsoIdToSet_hierarchy]
    simp only [hpres, List.all_append, h, Bool.true_and, List.all_cons,
      List.all_nil, Bool.and_true, isBatchTopNode]
    simp [getIsoChildrenB_ok_shape heq]

/-- Folding any invariant-preserving step over a list of ids preserves the
invariant. -/
theorem foldl_invariant {P : BatchAcc → Prop} {f : BatchAcc → String → BatchAcc}
    (hf : ∀ acc i, P acc → P (f acc i)) :
    ∀ (ids : List String) (acc), P acc → P (ids.foldl f acc) := by
  intro ids
  induction ids with
  | nil => intro acc h; exact h
  | cons i is ih => intro acc h; exact ih _ (hf _ _ h)

theorem executeBatch_hierarchy_shape (st : Store) (lineIds isoIds : List String)
    (s p : Bool) :
    (executeBatch st lineIds isoIds s p).impact_hierarchy.all isBatchTopNode = true := by
  unfold executeBatch
  simp only
  apply foldl_invariant
    (P := fun a => a.impact_hierarchy.all isBatchTopNode = true)
    (fun acc i h => processIso_hierarchy_shape h)
  apply foldl_invariant
    (P := fun a => a.impact_hierarchy.all isBatchTopNode = true)
    (fun acc i h => processLine_hierarchy_shape h)
  rfl

/-- C1 counterexample.  Batch analysis of the single ISO root `"X.1"` against
a store with no children: the root's hierarchy node stores `impact_count = 0`
(the number of its children), while the claimed bottom-up rule
`1 + sum of children's impact_counts` gives `1`. -/
theorem batch_impact_count_cex :
    (executeBatch stEmpty [] ["X.1"] true true).impact_hierarchy.map
        HNode.impact_count = [0]
      ∧ (executeBatch stEmpty [] ["X.1"] true true).impact_hierarchy.map
          (fun n => 1 + (n.children.map HNode.impact_count).sum) = [1]
      ∧ (executeBatch stEmpty [] ["X.1"] true true).impact_hierarchy.all
          claimedCountOk = false :=
  ⟨rfl, rfl, rfl⟩

/-- C1 (amended): in the batch `impact_hierarchy`, SPOOL and Part nodes are
leaves with `impact_count = 1`; an ISO node's `impact_count` is the *number of
its children* (not 1 + their counts); a Line node's `impact_count` is the
bottom-up `_count_hierarchy_impacts` of its whole subtree (1 per node); and
`total_impact_count` is the sum of the three per-type deduplicated set sizes
(ISOs + SPOOLs + Parts), not a sum of per-root impact_counts. -/
theorem executeBatch_counts_spec (st : Store) (lineIds isoIds : List String)
    (s p : Bool) :
    (executeBatch st lineIds isoIds s p).impact_hierarchy.all isBatchTopNode = true
      ∧ (executeBatch st lineIds isoIds s p).metrics.total_impact_count
          = (executeBatch st lineIds isoIds s p).affected_isos.length
            + (executeBatch st lineIds isoIds s p).affected_spools.length
            + (executeBatch st lineIds isoIds s p).affected_parts.length :=
  ⟨executeBatch_hierarchy_shape st lineIds isoIds s p, by unfold executeBatch; rfl⟩

/-! ## Every batch SPOOL node is a leaf -/

theorem allNodesList_of_leaves (cs : List HNode)
    (h : cs.all isBatchLeafChild = true) :
    allNodesList spoolLeafPred cs = true := by
  induction cs with
  | nil => rfl
  | cons c rest ih =>
    simp only [List.all_cons, Bool.and_eq_true] at h
    obtain ⟨hc, hrest⟩ := h
    cases c with
    | mk i t cs' pr n =>
      simp only [isBatchLeafChild, HNode.entity_type, HNode.children,
        HNode.impact_count, Bool.and_eq_true, List.isEmpty_iff] at hc
      obtain ⟨⟨hty, hemp⟩, hcnt⟩ := hc
      subst hemp
      simp only [allNodesList, HNode.allNodes, Bool.and_eq_true]
      refine ⟨⟨?_, trivial⟩, ih hrest⟩
      simp only [spoolLeafPred, HNode.entity_type, HNode.children,
        HNode.impact_count, List.isEmpty_nil, Bool.true_and]
      cases hty' : (t == "SPOOL") <;> simp [hty', hcnt]

theorem isBatchIsoNode_allNodes {n : HNode} (h : isBatchIsoNode n = true) :
    n.allNodes spoolLeafPred = true := by
  cases n with
  | mk i t cs pr c =>
    simp only [isBatchIsoNode, HNode.entity_type, HNode.children,
      HNode.impact_count, Bool.and_eq_true, beq_iff_eq] at h
    obtain ⟨⟨hty, -⟩, hch⟩ := h
    subst hty
    simp only [HNode.allNodes, Bool.and_eq_true]
    exact ⟨by simp [spoolLeafPred, HNode.entity_type], allNodesList_of_leaves cs hch⟩

theorem allNodesList_of_isos (cs : List HNode)
    (h : cs.all isBatchIsoNode = true) :
    allNodesList spoolLeafPred cs = true := by
  induction cs with
  | nil => rfl
  | cons c rest ih =>
    simp only [List.all_cons, Bool.and_eq_true] at h
    simp only [allNodesList, Bool.and_eq_true]
    exact ⟨isBatchIsoNode_allNodes h.1, ih h.2⟩

theorem isBatchTopNode_allNodes {n : HNode} (h : isBatchTopNode n = true) :
    n.allNodes spoolLeafPred = true := by
  simp only [isBatchTopNode, Bool.or_eq_true] at h
  rcases h with h | h
  · exact isBatchIsoNode_allNodes h
  · cases n with
    | mk i t cs pr c =>
      simp only [isBatchLineNode, HNode.entity_type, HNode.children,
        Bool.and_eq_true, beq_iff_eq] at h
      obtain ⟨⟨hty, -⟩, hch⟩ := h
      subst hty
      simp only [HNode.allNodes, Bool.and_eq_true]
      exact ⟨by simp [spoolLeafPred, HNode.entity_type], allNodesList_of_isos cs hch⟩

/-! ## Which roots appear in the batch hierarchy -/

theorem processLine_hier_ids (st : Store) (lid : String) (acc : BatchAcc)
    (s p : Bool) :
    ∃ t, (processLine st lid acc s p).impact_hierarchy.map HNode.entity_id
        = acc.impact_hierarchy.map HNode.entity_id ++ t ∧ t.Sublist [lid] := by
  unfold processLine
  split
  · exact ⟨[], by simp, List.nil_sublist _⟩
  · exact ⟨[], by simp, List.nil_sublist _⟩
  · rename_i line heq
    split
    · exact ⟨[], by simp [addLineToSet_hierarchy], List.nil_sublist _⟩
    · rename_i isos heq2
      split
      · rename_i acc₂ e heq3
        have : acc₂ = (processLineIsos st isos (addLineToSet line acc) [] s p).1 := by
          rw [heq3]
        refine ⟨[], ?_, List.nil_sublist _⟩
        rw [this, processLineIsos_hierarchy, addLineToSet_hierarchy]
        simp
      · rename_i acc₂ children heq3
        have : acc₂ = (processLineIsos st isos (addLineToSet line acc) [] s p).1 := by
          rw [heq3]
        refine ⟨[lid], ?_, List.Sublist.refl _⟩
        simp only [List.map_append, List.map_cons, List.map_nil]
        rw [this, processLineIsos_hierarchy, addLineToSet_hierarchy]
        rfl

theorem getIsoChildrenBParts_ok_id {st : Store} {i : String} {acc : BatchAcc}
    {p : Bool} {d : Rec} {ch : List HNode} {acc' : BatchAcc} {node : HNode}
    (h : getIsoChildrenBParts st i acc p d ch = (acc', .ok node)) :
    node.entity_id = i := by
  unfold getIsoChildrenBParts at h
  split at h
  · split at h
    · simp at h
    · obtain ⟨-, h2⟩ := Prod.mk.injEq .. ▸ h
      cases h2
      rfl
  · obtain ⟨-, h2⟩ := Prod.mk.injEq .. ▸ h
    cases h2
    rfl

theorem getIsoChildrenB_ok_id {st : Store} {i : String} {acc : BatchAcc}
    {s p : Bool} {acc' : BatchAcc} {node : HNode}
    (h : getIsoChildrenB st i acc s p = (acc', .ok node)) :
    node.entity_id = i := by
  unfold getIsoChildrenB at h
  split at h
  · split at h
    · simp at h
    · exact getIsoChildrenBParts_ok_id h
  · exact getIsoChildrenBParts_ok_id h

theorem processIso_hier_ids (st : Store) (iid : String) (acc : BatchAcc)
    (s p : Bool) :
    ∃ t, (processIso st iid acc s p).impact_hierarchy.map HNode.entity_id
        = acc.impact_hierarchy.map HNode.entity_id ++ t ∧ t.Sublist [iid] := by
  unfold processIso
  split
  · rename_i acc₁ e heq
    have : acc₁ = (getIsoChildrenB st iid (addIsoIdToSet iid acc) s p).1 := by
      rw [heq]
    refine ⟨[], ?_, List.nil_sublist _⟩
    rw [this, getIsoChildrenB_hierarchy, addIsoIdToSet_hierarchy]
    simp
  · rename_i acc₁ node heq
    have hacc₁ : acc₁ = (getIsoChildrenB st iid (addIsoIdToSet iid acc) s p).1 := by
      rw [heq]
    refine ⟨[iid], ?_, List.Sublist.refl _⟩
    simp only [List.map_append, List.map_cons, List.map_nil]
    rw [hacc₁, getIsoChildrenB_hierarchy, addIsoIdToSet_hierarchy,
      getIsoChildrenB_ok_id heq]

theorem foldl_hier_ids {f : BatchAcc → String → BatchAcc}
    (hf : ∀ acc i, ∃ t, (f acc i).impact_hierarchy.map HNode.entity_id
        = acc.impact_hierarchy.map HNode.entity_id ++ t ∧ t.Sublist [i]) :
    ∀ (ids : List String) (acc), ∃ t,
      (ids.foldl f acc).impact_hierarchy.map HNode.entity_id
        = acc.impact_hierarchy.map HNode.entity_id ++ t ∧ t.Sublist ids := by
  intro ids
  induction ids with
  | nil => intro acc; exact ⟨[], by simp, List.nil_sublist _⟩
  | cons i is ih =>
    intro acc
    obtain ⟨t1, h1, hs1⟩ := hf acc i
    obtain ⟨t2, h2, hs2⟩ := ih (f acc i)
    refine ⟨t1 ++ t2, ?_, ?_⟩
    · rw [List.foldl_cons, h2, h1, List.append_assoc]
    · exact hs1.append hs2

theorem executeBatch_roots_sublist (st : Store) (lineIds isoIds : List String)
    (s p : Bool) :
    ((executeBatch st lineIds isoIds s p).impact_hierarchy.map HNode.entity_id).Sublist
      (lineIds ++ isoIds) := by
  unfold executeBatch
  simp only
  obtain ⟨t1, h1, hs1⟩ := foldl_hier_ids
    (fun acc i => processLine_hier_ids st i acc s p) lineIds emptyBatchAcc
  obtain ⟨t2, h2, hs2⟩ := foldl_hier_ids
    (fun acc i => processIso_hier_ids st i acc s p) isoIds
    (lineIds.foldl (fun a lid => processLine st lid a s p) emptyBatchAcc)
  rw [h2, h1]
  simpa using hs1.append hs2

/-- C5 counterexample.  A 4-root batch over ISO roots `I1..I4` where the store
raises while fetching `I1`'s spools: root `I1` is *dropped* from
`impact_hierarchy` entirely (only 3 roots remain), rather than appearing with
an empty children list as the claim states. -/
theorem batch_partial_failure_cex :
    (executeBatch stFailSpools [] ["I1", "I2", "I3", "I4"] true true).impact_hierarchy.map
        HNode.entity_id = ["I2", "I3", "I4"]
      ∧ ((executeBatch stFailSpools [] ["I1", "I2", "I3", "I4"] true
          true).impact_hierarchy.map HNode.entity_id).contains "I1" = false :=
  ⟨rfl, rfl⟩

/-- C5 (amended): a store failure while expanding one root's branch is caught
at that root's level and drops the *whole root* from `impact_hierarchy` (it
does not appear with empty children); the hierarchy's root ids always form a
subsequence of the requested roots, the surviving roots are exactly the ones
whose expansion succeeded, and no exception escapes the batch call
(`executeBatch` is a total function).  Concretely, failing on `I1`'s spools in
a 4-root batch leaves the hierarchy `["I2", "I3", "I4"]`. -/
theorem executeBatch_partial_failure_spec (st : Store)
    (lineIds isoIds : List String) (s p : Bool) :
    ((executeBatch st lineIds isoIds s p).impact_hierarchy.map HNode.entity_id).Sublist
        (lineIds ++ isoIds)
      ∧ (executeBatch stFailSpools [] ["I1", "I2", "I3", "I4"] true
          true).impact_hierarchy.map HNode.entity_id = ["I2", "I3", "I4"] :=
  ⟨executeBatch_roots_sublist st lineIds isoIds s p, rfl⟩

/-! ## Deduplication of the per-type affected sets -/

/-- The three per-type sets hold pairwise-distinct entity ids. -/
def SetsNodup (acc : BatchAcc) : Prop :=
  (acc.affected_isos.map Entry.id).Nodup
    ∧ (acc.affected_spools.map Entry.id).Nodup
    ∧ (acc.affected_parts.map Entry.id).Nodup

theorem addSpoolToSet_present {r : Rec} {set : List Entry}
    (hp : set.any (fun s => recGet? r "id" == some s.id) = true) :
    addSpoolToSet r set = set := by
  unfold addSpoolToSet
  rw [if_pos hp]

theorem addPartToSet_present {r : Rec} {set : List Entry}
    (hp : set.any (fun s => recGet? r "id" == some s.id) = true) :
    addPartToSet r set = set := by
  unfold addPartToSet
  rw [if_pos hp]

theorem addSpoolToSet_idem {r : Rec} {set : List Entry}
    (hr : (recGet? r "id").isSome) :
    addSpoolToSet r (addSpoolToSet r set) = addSpoolToSet r set := by
  obtain ⟨v, hv⟩ := Option.isSome_iff_exists.mp hr
  by_cases hp : set.any (fun s => recGet? r "id" == some s.id) = true
  · rw [addSpoolToSet_present hp, addSpoolToSet_present hp]
  · apply addSpoolToSet_present
    unfold addSpoolToSet
    rw [if_neg hp, List.any_append]
    simp [hv, recGetD]

theorem addPartToSet_idem {r : Rec} {set : List Entry}
    (hr : (recGet? r "id").isSome) :
    addPartToSet r (addPartToSet r set) = addPartToSet r set := by
  obtain ⟨v, hv⟩ := Option.isSome_iff_exists.mp hr
  by_cases hp : set.any (fun s => recGet? r "id" == some s.id) = true
  · rw [addPartToSet_present hp, addPartToSet_present hp]
  · apply addPartToSet_present
    unfold addPartToSet
    rw [if_neg hp, List.any_append]
    simp [hv, recGetD]

theorem guardAppend_nodup {set : List Entry} {v ty : String} {props : Rec}
    (hg : ∀ e ∈ set, v ≠ e.id) (h : (set.map Entry.id).Nodup) :
    (((set ++ [(⟨v, ty, props⟩ : Entry)]).map Entry.id)).Nodup := by
  rw [List.map_append]
  simp only [List.map_cons, List.map_nil]
  rw [List.nodup_append]
  refine ⟨h, List.nodup_singleton _, ?_⟩
  intro a ha hb
  rw [List.mem_singleton] at hb
  subst hb
  obtain ⟨e, he, hev⟩ := List.mem_map.mp ha
  exact hg e he hev.symm

theorem addSpoolToSet_nodup {r : Rec} {set : List Entry}
    (hid : (recGet? r "id").isSome) (h : (set.map Entry.id).Nodup) :
    ((addSpoolToSet r set).map Entry.id).Nodup := by
  unfold addSpoolToSet
  split
  · exact h
  · rename_i hg
    obtain ⟨v, hv⟩ := Option.isSome_iff_exists.mp hid
    have hvd : recGetD r "id" "unknown" = v := by simp [recGetD, hv]
    rw [hvd]
    refine guardAppend_nodup ?_ h
    intro e he hev
    apply hg
    rw [List.any_eq_true]
    exact ⟨e, he, by rw [hv, ← hev]; exact beq_self_eq_true _⟩

theorem addPartToSet_nodup {r : Rec} {set : List Entry}
    (hid : (recGet? r "id").isSome) (h : (set.map Entry.id).Nodup) :
    ((addPartToSet r set).map Entry.id).Nodup := by
  unfold addPartToSet
  split
  · exact h
  · rename_i hg
    obtain ⟨v, hv⟩ := Option.isSome_iff_exists.mp hid
    have hvd : recGetD r "id" "unknown" = v := by simp [recGetD, hv]
    rw [hvd]
    refine guardAppend_nodup ?_ h
    intro e he hev
    apply hg
    rw [List.any_eq_true]
    exact ⟨e, he, by rw [hv, ← hev]; exact beq_self_eq_true _⟩

theorem spoolLoop_set_nodup (rs : List Rec) :
    ∀ set ch, (∀ r ∈ rs, (recGet? r "id").isSome) → (set.map Entry.id).Nodup →
      ((spoolLoop rs set ch).1.map Entry.id).Nodup := by
  induction rs with
  | nil => intro set ch _ h; exact h
  | cons r rest ih =>
    intro set ch hall h
    exact ih _ _ (fun x hx => hall x (List.mem_cons_of_mem r hx))
      (addSpoolToSet_nodup (hall r (List.mem_cons_self r rest)) h)

theorem partLoop_set_nodup (rs : List Rec) :
    ∀ set ch, (∀ r ∈ rs, (recGet? r "id").isSome) → (set.map Entry.id).Nodup →
      ((partLoop rs set ch).1.map Entry.id).Nodup := by
  induction rs with
  | nil => intro set ch _ h; exact h
  | cons r rest ih =>
    intro set ch hall h
    exact ih _ _ (fun x hx => hall x (List.mem_cons_of_mem r hx))
      (addPartToSet_nodup (hall r (List.mem_cons_self r rest)) h)

theorem addLineToSet_sets {line : LineEnt} {acc : BatchAcc}
    (h : SetsNodup acc) : SetsNodup (addLineToSet line acc) := h

theorem addIsoEntToSet_sets {iso : IsoParsed} {acc : BatchAcc}
    (h : SetsNodup acc) : SetsNodup (addIsoEntToSet iso acc) := by
  unfold addIsoEntToSet
  split
  · exact h
  · rename_i hg
    obtain ⟨h1, h2, h3⟩ := h
    refine ⟨?_, h2, h3⟩
    refine guardAppend_nodup ?_ h1
    intro e he hev
    apply hg
    rw [List.any_eq_true]
    exact ⟨e, he, by rw [hev]; exact beq_self_eq_true _⟩

theorem addIsoIdToSet_sets {iso_id : String} {acc : BatchAcc}
    (h : SetsNodup acc) : SetsNodup (addIsoIdToSet iso_id acc) := by
  unfold addIsoIdToSet
  split
  · exact h
  · rename_i hg
    obtain ⟨h1, h2, h3⟩ := h
    refine ⟨?_, h2, h3⟩
    refine guardAppend_nodup ?_ h1
    intro e he hev
    apply hg
    rw [List.any_eq_true]
    exact ⟨e, he, by rw [hev]; exact beq_self_eq_true _⟩

theorem getIsoChildrenBParts_sets {st : Store} (hwf : st.SpoolPartsHaveIds)
    {i : String} {acc : BatchAcc} {p : Bool} {d : Rec} {ch : List HNode}
    (h : SetsNodup acc) :
    SetsNodup (getIsoChildrenBParts st i acc p d ch).1 := by
  unfold getIsoChildrenBParts
  split
  · split
    · exact h
    · rename_i parts heq
      obtain ⟨h1, h2, h3⟩ := h
      exact ⟨h1, h2, partLoop_set_nodup parts _ ch (hwf.2 i parts heq) h3⟩
  · exact h

theorem getIsoChildrenB_sets {st : Store} (hwf : st.SpoolPartsHaveIds)
    {i : String} {acc : BatchAcc} {s p : Bool} (h : SetsNodup acc) :
    SetsNodup (getIsoChildrenB st i acc s p).1 := by
  unfold getIsoChildrenB
  split
  · split
    · exact h
    · rename_i spools heq
      obtain ⟨h1, h2, h3⟩ := h
      exact getIsoChildrenBParts_sets hwf
        ⟨h1, spoolLoop_set_nodup spools _ [] (hwf.1 i spools heq) h2, h3⟩
  · exact getIsoChildrenBParts_sets hwf h

theorem processLineIsos_sets {st : Store} (hwf : st.SpoolPartsHaveIds)
    (isos : List IsoParsed) :
    ∀ {acc : BatchAcc} {ch : List HNode} {s p : Bool}, SetsNodup acc →
      SetsNodup (processLineIsos st isos acc ch s p).1 := by
  induction isos with
  | nil => intro acc ch s p h; exact h
  | cons iso rest ih =>
    intro acc ch s p h
    unfold processLineIsos
    split
    · rename_i acc₁ e heq
      have : acc₁ = (getIsoChildrenB st iso.id (addIsoEntToSet iso acc) s p).1 := by
        rw [heq]
      rw [this]
      exact getIsoChildrenB_sets hwf (addIsoEntToSet_sets h)
    · rename_i acc₁ node heq
      have : acc₁ = (getIsoChildrenB st iso.id (addIsoEntToSet iso acc) s p).1 := by
        rw [heq]
      apply ih
      rw [this]
      exact getIsoChildrenB_sets hwf (addIsoEntToSet_sets h)

theorem processLine_sets {st : Store} (hwf : st.SpoolPartsHaveIds)
    {lid : String} {acc : BatchAcc} {s p : Bool} (h : SetsNodup acc) :
    SetsNodup (processLine st lid acc s p) := by
  unfold processLine
  split
  · exact h
  · exact h
  · rename_i line heq
    split
    · exact addLineToSet_sets h
    · rename_i isos heq2
      split
      · rename_i acc₂ e heq3
        have : acc₂ = (processLineIsos st isos (addLineToSet line acc) [] s p).1 := by
          rw [heq3]
        rw [this]
        exact processLineIsos_sets hwf isos (addLineToSet_sets h)
      · rename_i acc₂ children heq3
        have hacc₂ : acc₂ = (processLineIsos st isos (addLineToSet line acc) [] s p).1 := by
          rw [heq3]
        have hs : SetsNodup acc₂ := by
          rw [hacc₂]
          exact processLineIsos_sets hwf isos (addLineToSet_sets h)
        exact hs

theorem processIso_sets {st : Store} (hwf : st.SpoolPartsHaveIds)
    {iid : String} {acc : BatchAcc} {s p : Bool} (h : SetsNodup acc) :
    SetsNodup (processIso st iid acc s p) := by
  unfold processIso
  split
  · rename_i acc₁ e heq
    have : acc₁ = (getIsoChildrenB st iid (addIsoIdToSet iid acc) s p).1 := by
      rw [heq]
    rw [this]
    exact getIsoChildrenB_sets hwf (addIsoIdToSet_sets h)
  · rename_i acc₁ node heq
    have hacc₁ : acc₁ = (getIsoChildrenB st iid (addIsoIdToSet iid acc) s p).1 := by
      rw [heq]
    have hs : SetsNodup acc₁ := by
      rw [hacc₁]
      exact getIsoChildrenB_sets hwf (addIsoIdToSet_sets h)
    exact hs

/-- C7: under the store contract that spool/part records carry an `"id"`
property (§4.2), batch aggregation is deduplicated and first-occurrence-wins:
each distinct id appears at most once per per-type set, the guarded add is
idempotent, and adding a record whose id is already present leaves the set —
ids *and* stored properties — completely unchanged.  In particular an ISO that
is both a requested root and a child of a requested Line appears once, and
`total_impact_count` (the sum of the set sizes) excludes the duplicate. -/
theorem executeBatch_dedup_spec (st : Store) (hwf : st.SpoolPartsHaveIds)
    (lineIds isoIds : List String) (s p : Bool) (r : Rec) (set : List Entry)
    (hr : (recGet? r "id").isSome)
    (hpresent : set.any (fun e => recGet? r "id" == some e.id) = true) :
    ((executeBatch st lineIds isoIds s p).affected_isos.map Entry.id).Nodup
      ∧ ((executeBatch st lineIds isoIds s p).affected_spools.map Entry.id).Nodup
      ∧ ((executeBatch st lineIds isoIds s p).affected_parts.map Entry.id).Nodup
      ∧ addSpoolToSet r (addSpoolToSet r set) = addSpoolToSet r set
      ∧ addPartToSet r (addPartToSet r set) = addPartToSet r set
      ∧ addSpoolToSet r set = set ∧ addPartToSet r set = set := by
  have hsets : SetsNodup ((isoIds.foldl (fun a iid => processIso st iid a s p)
      (lineIds.foldl (fun a lid => processLine st lid a s p) emptyBatchAcc))) := by
    apply foldl_invariant (P := SetsNodup) (fun acc i h => processIso_sets hwf h)
    apply foldl_invariant (P := SetsNodup) (fun acc i h => processLine_sets hwf h)
    exact ⟨List.nodup_nil, List.nodup_nil, List.nodup_nil⟩
  exact ⟨hsets.1, hsets.2.1, hsets.2.2, addSpoolToSet_idem hr, addPartToSet_idem hr,
    addSpoolToSet_present hpresent, addPartToSet_present hpresent⟩

/-- C7 witness. -/
theorem executeBatch_dedup_spec_witness :
    ((executeBatch stEmpty ["L1"] ["X.1"] true true).affected_isos.map Entry.id).Nodup
      ∧ ((executeBatch stEmpty ["L1"] ["X.1"] true true).affected_spools.map Entry.id).Nodup
      ∧ ((executeBatch stEmpty ["L1"] ["X.1"] true true).affected_parts.map Entry.id).Nodup
      ∧ addSpoolToSet [("id", "S1")] (addSpoolToSet [("id", "S1")] [⟨"S1", "SPOOL", []⟩])
          = addSpoolToSet [("id", "S1")] [⟨"S1", "SPOOL", []⟩]
      ∧ addPartToSet [("id", "S1")] (addPartToSet [("id", "S1")] [⟨"S1", "SPOOL", []⟩])
          = addPartToSet [("id", "S1")] [⟨"S1", "SPOOL", []⟩]
      ∧ addSpoolToSet [("id", "S1")] [⟨"S1", "SPOOL", []⟩] = [⟨"S1", "SPOOL", []⟩]
      ∧ addPartToSet [("id", "S1")] [⟨"S1", "SPOOL", []⟩] = [⟨"S1", "SPOOL", []⟩] :=
  executeBatch_dedup_spec stEmpty
    ⟨fun _ l h => (by cases h; intro r hr; cases hr),
      fun _ l h => (by cases h; intro r hr; cases hr)⟩
    ["L1"] ["X.1"] true true [("id", "S1")] [⟨"S1", "SPOOL", []⟩]
    (by decide) (by decide)

/-- C10: in every batch `impact_hierarchy`, every SPOOL node anywhere in any
tree is a leaf — empty children and `impact_count = 1` — for every choice of
the `include_spools` / `include_parts` flags: batch analysis never expands a
SPOOL into its grouped Parts. -/
theorem executeBatch_spool_leaves (st : Store) (lineIds isoIds : List String)
    (s p : Bool) :
    (executeBatch st lineIds isoIds s p).impact_hierarchy.all
      (HNode.allNodes spoolLeafPred) = true := by
  have hall := executeBatch_hierarchy_shape st lineIds isoIds s p
  rw [List.all_eq_true] at hall ⊢
  intro x hx
  exact isBatchTopNode_allNodes (hall x hx)

/-! ## Single-entity analysis: missing roots -/

/-- C4 counterexample.  Analysing ISO `"X.1"` against a store that does not
contain it *succeeds* (the ISO branch performs no existence check): the
result lists the parsed ISO itself with empty spools/parts, instead of
failing with `EntityNotFound` as the claim states. -/
theorem analyze_missing_iso_cex :
    analyzeSingle stEmpty "ISO" "X.1"
        = .ok ⟨[⟨"X.1", "X", some "1"⟩], [], [], 1, .MEDIUM⟩
      ∧ analyzeSingle stEmpty "ISO" "X.1" ≠ .error .entityNotFound := by
  have hok : analyzeSingle stEmpty "ISO" "X.1"
      = .ok ⟨[⟨"X.1", "X", some "1"⟩], [], [], 1, .MEDIUM⟩ := rfl
  refine ⟨hok, ?_⟩
  rw [hok]
  intro hc
  cases hc

/-- C4 (amended): a single-entity analysis of a *Line* whose id is not in the
store fails with `EntityNotFound` and produces no result; a missing *ISO*
root does **not** fail — the analysis succeeds, listing the parsed ISO itself
(`impact_count = 1`, severity `MEDIUM`) with empty spools and parts; and for
any other (unknown) entity type whose generic traversal finds nothing the
operation succeeds with empty sets (`impact_count = 0`, severity `LOW`). -/
theorem analyzeSingle_notfound_spec (st : Store) (lid iid ty id : String)
    (hlid : lid.isEmpty = false)
    (hl : st.get_line_by_id lid = .ok none)
    (hiid : iid.isEmpty = false)
    (hsp : st.get_affected_spools_by_iso iid = .ok [])
    (hpp : st.get_affected_parts_by_iso iid = .ok [])
    (hty : ty.isEmpty = false) (hid : id.isEmpty = false)
    (hnl : strLower ty ≠ "line") (hni : strLower ty ≠ "iso")
    (htr : st.traverse_impact_graph ty id 5 = .ok []) :
    analyzeSingle st "Line" lid = .error .entityNotFound
      ∧ analyzeSingle st "ISO" iid
          = .ok ⟨[parse_iso_id iid], [], [], 1, .MEDIUM⟩
      ∧ analyzeSingle st ty id = .ok ⟨[], [], [], 0, .LOW⟩ := by
  refine ⟨?_, ?_, ?_⟩
  · have hc1 : (lid.isEmpty || "Line".isEmpty) = false := by rw [hlid]; rfl
    have hc2 : (strLower "Line" == "line") = true := rfl
    simp only [analyzeSingle, hc1, Bool.false_eq_true, if_false, hc2, if_true]
    simp only [analyzeLineImpact, hl]
  · have hc1 : (iid.isEmpty || "ISO".isEmpty) = false := by rw [hiid]; rfl
    have hc2 : (strLower "ISO" == "line") = false := rfl
    have hc3 : (strLower "ISO" == "iso") = true := rfl
    simp only [analyzeSingle, hc1, hc2, hc3, Bool.false_eq_true, if_false, if_true]
    simp only [analyzeIsoImpact, hsp, hpp]
    rfl
  · have hc1 : (id.isEmpty || ty.isEmpty) = false := by rw [hid, hty]; rfl
    have hc2 : (strLower ty == "line") = false := by
      rw [beq_eq_false_iff_ne]; exact hnl
    have hc3 : (strLower ty == "iso") = false := by
      rw [beq_eq_false_iff_ne]; exact hni
    simp only [analyzeSingle, hc1, hc2, hc3, Bool.false_eq_true, if_false]
    simp only [analyzeGenericImpact, htr]
    rfl

/-- C4 witness. -/
theorem analyzeSingle_notfound_spec_witness :
    analyzeSingle stEmpty "Line" "L1" = .error .entityNotFound
      ∧ analyzeSingle stEmpty "ISO" "X.1"
          = .ok ⟨[parse_iso_id "X.1"], [], [], 1, .MEDIUM⟩
      ∧ analyzeSingle stEmpty "Equipment" "E1" = .ok ⟨[], [], [], 0, .LOW⟩ :=
  analyzeSingle_notfound_spec stEmpty "L1" "X.1" "Equipment" "E1"
    rfl rfl rfl rfl rfl rfl rfl (by decide) (by decide) rfl

/-! ## Depth bound of children retrieval -/

theorem heightList_le_of (cs : List CNode) (k : Nat)
    (h : ∀ c ∈ cs, c.height ≤ k) : heightList cs ≤ k := by
  induction cs with
  | nil => exact Nat.zero_le k
  | cons c rest ih =>
    simp only [heightList]
    exact max_le (h c (List.mem_cons_self c rest))
      (ih fun x hx => h x (List.mem_cons_of_mem c hx))

theorem getSpoolChildrenH_height (st : Store) (sid : String) (maxD curD : Nat) :
    ∀ c ∈ getSpoolChildrenH st sid maxD curD, c.height ≤ 1 := by
  intro c hc
  unfold getSpoolChildrenH at hc
  split at hc
  · cases hc
  · split at hc
    · cases hc
    · obtain ⟨p, hp, rfl⟩ := List.mem_map.mp hc
      simp [CNode.height, heightList]

theorem getIsoChildrenH_height {st : Store} {i : String} {maxD curD : Nat}
    {l : List CNode} (h : getIsoChildrenH st i maxD curD = .ok l) :
    ∀ c ∈ l, c.height ≤ maxD - curD + 1 := by
  intro c hc
  unfold getIsoChildrenH at h
  split at h
  · cases h; cases hc
  · rename_i hdep
    rcases h1 : st.get_affected_spools_by_iso i with e | spools
    · rw [h1] at h; simp at h
    · rw [h1] at h
      rcases h2 : st.get_affected_parts_by_iso i with e | parts
      · rw [h2] at h; simp at h
      · rw [h2] at h
        simp only at h
        cases h
        rcases List.mem_append.mp hc with hs | hp
        · obtain ⟨sp, hsp, rfl⟩ := List.mem_map.mp hs
          simp only [CNode.height]
          by_cases hlt : curD < maxD
          · rw [if_pos hlt]
            have := heightList_le_of _ 1
              (getSpoolChildrenH_height st (recGetD sp "id" "unknown") maxD (curD + 1))
            omega
          · rw [if_neg hlt]
            simp only [heightList]
            omega
        · obtain ⟨p, hpp, rfl⟩ := List.mem_map.mp hp
          simp only [CNode.height, heightList]
          omega

theorem lineIsoNodes_height {st : Store} (isos : List IsoParsed) :
    ∀ {maxD curD : Nat} {l : List CNode},
      lineIsoNodes st isos maxD curD = .ok l →
      ∀ c ∈ l, c.height ≤ maxD - curD + 1 := by
  induction isos with
  | nil =>
    intro maxD curD l h c hc
    cases h
    cases hc
  | cons iso rest ih =>
    intro maxD curD l h c hc
    unfold lineIsoNodes at h
    split at h
    · simp at h
    · rename_i cs heq1
      split at h
      · simp at h
      · rename_i ns heq2
        cases h
        rcases List.mem_cons.mp hc with rfl | hc
        · simp only [CNode.height]
          split at heq1
          · rename_i hlt
            have hb := getIsoChildrenH_height heq1
            have := heightList_le_of cs (maxD - (curD + 1) + 1) hb
            omega
          · cases heq1
            simp only [heightList]
            omega
        · exact ih heq2 c hc

theorem getLineChildrenH_height {st : Store} {lid : String} {maxD curD : Nat}
    {l : List CNode} (h : getLineChildrenH st lid maxD curD = .ok l) :
    ∀ c ∈ l, c.height ≤ maxD - curD + 1 := by
  unfold getLineChildrenH at h
  split at h
  · cases h; intro c hc; cases hc
  · split at h
    · simp at h
    · exact lineIsoNodes_height _ h

/-- C9: a `getChildren` call with `depth = d ≥ 1` that returns a result never
places a node more than `d` relationship hops below the root: the longest
root-to-leaf path over the returned children trees (`heightList`) is at most
`d`, for every entity type. -/
theorem executeChildren_depth_spec (st : Store) (ty id : String) (d : Nat)
    (res : ChildrenResult) (hd : 1 ≤ d)
    (h : executeChildren st ty id d = .ok res) :
    heightList res.children ≤ d := by
  unfold executeChildren at h
  split at h
  · simp at h
  · rename_i children heq
    cases h
    show heightList children ≤ d
    split at heq
    · apply heightList_le_of
      intro c hc
      have := getLineChildrenH_height heq c hc
      omega
    · split at heq
      · apply heightList_le_of
        intro c hc
        have := getIsoChildrenH_height heq c hc
        omega
      · split at heq
        · cases heq
          apply heightList_le_of
          intro c hc
          have := getSpoolChildrenH_height st id d 1 c hc
          omega
        · cases heq
          simp [heightList]

/-- C9 witness: scenario C — an ISO with two spools and one direct part at
`depth = 1` returns three top-level leaves, depth bound 1. -/
theorem executeChildren_depth_spec_witness :
    heightList ((executeChildren stChildren "ISO" "X.1" 1).toOption.getD
        ⟨"", "", [], 0⟩).children ≤ 1 :=
  executeChildren_depth_spec stChildren "ISO" "X.1" 1
    ⟨"X.1", "ISO", [.mk "S1" none [], .mk "S2" none [], .mk "P1" none []], 3⟩
    (le_refl 1) rfl

end ImpactAnalysis
